import Mathlib

/-!
Verification development for the raster-editing engine of the
Fajmuls-Voice repository (`src/components/AudioPlayer.tsx`,
`ImageEditModal` component).

The pixel buffers backing the drawing and mask canvases are modelled at
pixel granularity: a buffer is a function `Nat → RGBA` from the flat
pixel index `y * width + x` to an RGBA quadruple of 8-bit channel
values.  The JavaScript code stores the same data as a flat
`Uint8ClampedArray` at byte index `(y * width + x) * 4`; since every
access in the source uses byte indices of that shape, the two views
coincide.  An out-of-range read of a JavaScript typed array yields
`undefined`; reads that may go out of range are therefore modelled as
`Option RGBA`, with `none` playing the role of `undefined` (and
`undefined === number` being `false` in JavaScript corresponds to
`none ≠ some c`).
-/

/-- One RGBA pixel: four 8-bit channels, as read out of `ImageData.data`. -/

structure RGBA where
  r : Nat
  g : Nat
  b : Nat
  a : Nat
deriving DecidableEq, Repr

/-- Point update of a pixel buffer, modelling `pixels[pos] = v` (for the
four bytes of pixel `pos` at once). -/

def updateBuf (pixels : Nat → RGBA) (pos : Nat) (v : RGBA) : Nat → RGBA :=
  fun p => if p = pos then v else pixels p

/-- The point `(x, y)` lies inside the `w × h` buffer: the loop's bounds
check `cx < 0 || cx >= width || cy < 0 || cy >= height` fails exactly
when this holds. -/

def inB (w h : Nat) (x y : Int) : Prop :=
  0 ≤ x ∧ x < (w : Int) ∧ 0 ≤ y ∧ y < (h : Int)

instance (w h : Nat) (x y : Int) : Decidable (inB w h x y) := by
  unfold inB; infer_instance

/-- Flat pixel index of the integer coordinate `(x, y)`: the source's
`pos = (cy * width + cx) * 4` at pixel (rather than byte) granularity. -/

def pidx (w : Nat) (x y : Int) : Nat := (y * w + x).toNat

/-- The stack-based flood-fill loop of `handleBucketFill`
(`AudioPlayer.tsx` lines 591-617), with an explicit fuel parameter as
the termination device.  Each iteration pops `(cx, cy)`, skips it when
it is out of bounds (`cx < 0 || cx >= width || cy < 0 || cy >= height`),
when the mask layer's alpha at that pixel exceeds 10
(`maskPixels[pos + 3] > 10`), or when the drawing layer's pixel does not
match the start color exactly; otherwise it writes the fill color `C`
and pushes the four 4-connected neighbours (in source order
`[cx+1,cy]`, `[cx-1,cy]`, `[cx,cy+1]`, `[cx,cy-1]`, so the last push
`(cx, cy-1)` is popped first).  `target` is the start color captured
before the loop; it is `none` when the seed read was out of range.
The fuel handed over by `handleBucketFill` provably dominates the
loop measure `5 * (number of target-colored pixels) + stack length`,
which shrinks at every iteration, so the `0` case is never reached
from `handleBucketFill`. -/
def floodLoopFuel (w h : Nat) (target : Option RGBA) (C : RGBA)
    (maskPixels : Nat → RGBA) :
    Nat → (Nat → RGBA) → List (Int × Int) → (Nat → RGBA)
  | 0, pixels, _ => pixels
  | _ + 1, pixels, [] => pixels
  | f + 1, pixels, (cx, cy) :: rest =>
    if cx < 0 ∨ (w : Int) ≤ cx ∨ cy < 0 ∨ (h : Int) ≤ cy then
      floodLoopFuel w h target C maskPixels f pixels rest
    else
      if 10 < (maskPixels (pidx w cx cy)).a then
        floodLoopFuel w h target C maskPixels f pixels rest
      else if some (pixels (pidx w cx cy)) = target then
        floodLoopFuel w h target C maskPixels f
          (updateBuf pixels (pidx w cx cy) C)
          ((cx, cy - 1) :: (cx, cy + 1) :: (cx - 1, cy) :: (cx + 1, cy) :: rest)
      else
        floodLoopFuel w h target C maskPixels f pixels rest

/-- `handleBucketFill` (`AudioPlayer.tsx` lines 551-620) as a pure
function from the drawing buffer to the new drawing buffer.  The seed
`(startX, startY)` is the floored canvas coordinate of the click; the
fill color is `(r, g, b)` parsed from the hex brush color with alpha
hardcoded to 255 (lines 574-578).  The start color is read without a
bounds check (lines 581-585): in JavaScript an out-of-range typed-array
read yields `undefined`, modelled here by `none`; a seed whose flat
index aliases into range (for example `startX = -1, startY = 1`) reads
the aliased pixel exactly as the source does.  The early return at line
588 fires only when all four channel comparisons succeed, that is when
`target = some ⟨r, g, b, 255⟩`.  The final `putImageData` writes the
(possibly unmodified) pixel data back, so the function's value is the
loop's final buffer. -/

def handleBucketFill (w h : Nat) (pixels maskPixels : Nat → RGBA)
    (startX startY : Int) (r g b : Nat) : Nat → RGBA :=
  let k : Int := startY * w + startX
  let target : Option RGBA :=
    if 0 ≤ k ∧ k < (w * h : Nat) then some (pixels (pidx w startX startY)) else none
  if target = some ⟨r, g, b, 255⟩ then pixels
  else floodLoopFuel w h target ⟨r, g, b, 255⟩ maskPixels
    (5 * (w * h) + 2) pixels [(startX, startY)]

/-- 4-connected adjacency on integer pixel coordinates, matching the four
neighbour pushes of the loop. -/
def adjP (x y u v : Int) : Prop :=
  (u = x + 1 ∧ v = y) ∨ (u = x - 1 ∧ v = y) ∨ (u = x ∧ v = y + 1) ∨ (u = x ∧ v = y - 1)

/-- Number of in-range pixels whose color still matches the start color. -/
def cntTarget (w h : Nat) (target : Option RGBA) (pixels : Nat → RGBA) : Nat :=
  (List.range (w * h)).countP fun p => decide (some (pixels p) = target)

/-- Loop measure: `5 * cntTarget + stack length` strictly decreases at
every iteration (a skip pops one entry; a fill pops one, pushes four and
converts one target-colored pixel to the fill color). -/

def fillMeasure (w h : Nat) (target : Option RGBA) (pixels : Nat → RGBA)
    (st : List (Int × Int)) : Nat :=
  5 * cntTarget w h target pixels + st.length

/-- The loop invariant for the completeness argument on a buffer whose
target-colored pixels form the whole board: every pixel is either still
the start color or already filled; every in-bounds neighbour of a filled
pixel is filled or on the stack; and the seed is filled or on the stack. -/
def fillInv (w h : Nat) (t C : RGBA) (sx sy : Int) (pixels : Nat → RGBA)
    (st : List (Int × Int)) : Prop :=
  (∀ p, p < w * h → pixels p = t ∨ pixels p = C) ∧
  (∀ x y, inB w h x y → pixels (pidx w x y) = C →
    ∀ u v, adjP x y u v → inB w h u v →
      pixels (pidx w u v) = C ∨ (u, v) ∈ st) ∧
  ((sx, sy) ∈ st ∨ pixels (pidx w sx sy) = C) ∧
  inB w h sx sy

/-- What holds when the loop has drained its stack: the seed is filled
and the filled region is closed under in-bounds adjacency. -/

def fillPost (w h : Nat) (C : RGBA) (sx sy : Int) (pixels : Nat → RGBA) : Prop :=
  pixels (pidx w sx sy) = C ∧
  ∀ x y, inB w h x y → pixels (pidx w x y) = C →
    ∀ u v, adjP x y u v → inB w h u v → pixels (pidx w u v) = C

/-- A history snapshot: deep copies of the drawing and mask `ImageData`
captured by `saveHistory` (lines 300-305). -/
structure Snapshot where
  drawing : Nat → RGBA
  mask : Nat → RGBA

/-- The editing-session state relevant to the raster engine: buffer
dimensions, the two mutable layers, and the undo history. -/

structure EditorState where
  width : Nat
  height : Nat
  drawing : Nat → RGBA
  mask : Nat → RGBA
  history : List Snapshot
  historyStep : Int

/-- All-transparent buffer: a freshly allocated or cleared canvas
(`clearRect` leaves RGBA `(0,0,0,0)` everywhere). -/

def blankBuf : Nat → RGBA := fun _ => ⟨0, 0, 0, 0⟩

/-- Default snapshot used to model the indexing `history[prevStep]` in
`handleUndo`; the reachable-state invariant keeps the index in range, so
the default is never consulted in reachable states. -/

def blankSnap : Snapshot := ⟨blankBuf, blankBuf⟩

/-- JavaScript `list.slice(0, e)`: a negative end counts from the end of
the list, and the result is clamped to the available elements. -/

def jsSlice0 {α : Type} (l : List α) (e : Int) : List α :=
  l.take (if e < 0 then ((l.length : Int) + e).toNat else e.toNat)

/-- `saveHistory` (lines 289-312): discard the steps after the cursor
(`history.slice(0, historyStep + 1)`), append a snapshot of the current
canvases, evict the oldest entry when the retained depth exceeds 20
(`newHistory.shift()`), and point the cursor at the last entry. -/

def saveHistory (s : EditorState) : EditorState :=
  let newHistory := jsSlice0 s.history (s.historyStep + 1) ++ [⟨s.drawing, s.mask⟩]
  let newHistory2 := if 20 < newHistory.length then newHistory.drop 1 else newHistory
  { s with history := newHistory2, historyStep := (newHistory2.length : Int) - 1 }

/-- `handleUndo` (lines 314-332): with cursor above 0 restore the
previous snapshot and move the cursor back one; at 0 clear both
canvases and move to the "before-first" cursor −1; otherwise do
nothing. -/

def handleUndo (s : EditorState) : EditorState :=
  if 0 < s.historyStep then
    let st := s.history.getD (s.historyStep - 1).toNat blankSnap
    { s with drawing := st.drawing, mask := st.mask,
             historyStep := s.historyStep - 1 }
  else if s.historyStep = 0 then
    { s with drawing := blankBuf, mask := blankBuf, historyStep := -1 }
  else s

/-- A bucket-mode pointer-down (`handleMouseDown`, lines 477-480): one
flood fill into the drawing layer followed unconditionally by one
`saveHistory`. -/

def bucketDown (s : EditorState) (sx sy : Int) (r g b : Nat) : EditorState :=
  saveHistory { s with
    drawing := handleBucketFill s.width s.height s.drawing s.mask sx sy r g b }

/-- State right after a new image source is installed (lines 266-274):
cleared canvases, empty history, cursor −1.  `handleImageLoad` then
pushes the initial blank snapshot via `saveHistory`. -/

def initialState (w h : Nat) : EditorState :=
  ⟨w, h, blankBuf, blankBuf, [], -1⟩

/-- States reachable by the engine: from the initial state, via canvas
mutation (brush, eraser and mask strokes, bucket fills, face-mask
painting, canvas clears), `saveHistory`, or `handleUndo`. -/

inductive Reachable : EditorState → Prop
  | init (w h : Nat) : Reachable (initialState w h)
  | canvas (s : EditorState) (d m : Nat → RGBA) :
      Reachable s → Reachable { s with drawing := d, mask := m }
  | save (s : EditorState) : Reachable s → Reachable (saveHistory s)
  | undo (s : EditorState) : Reachable s → Reachable (handleUndo s)

/-- 2D affine transform as kept by a canvas 2D context:
`xp = a*x + c*y + e`, `yp = b*x + d*y + f`, over exact rationals
(the claim under test is structural, about which transform is composed,
not about floating-point rounding). -/
structure Mat where
  a : ℚ
  b : ℚ
  c : ℚ
  d : ℚ
  e : ℚ
  f : ℚ
deriving DecidableEq, Repr

def Mat.idm : Mat := ⟨1, 0, 0, 1, 0, 0⟩

/-- Composition (apply `n`, then `m`): canvas `translate`/`scale`
post-multiply the current transform. -/

def Mat.comp (m n : Mat) : Mat :=
  ⟨m.a * n.a + m.c * n.b, m.b * n.a + m.d * n.b,
   m.a * n.c + m.c * n.d, m.b * n.c + m.d * n.d,
   m.a * n.e + m.c * n.f + m.e, m.b * n.e + m.d * n.f + m.f⟩

def Mat.translation (tx ty : ℚ) : Mat := ⟨1, 0, 0, 1, tx, ty⟩

def Mat.scaling (sx sy : ℚ) : Mat := ⟨sx, 0, 0, sy, 0, 0⟩

/-- The three layers `handleSave` could conceivably source from. -/
inductive LayerSrc
  | source
  | drawing
  | maskLayer
deriving DecidableEq, Repr

/-- One `ctx.drawImage(layer, dx, dy, dw, dh)` call, recorded with the
transform in force when it was issued. -/

structure DrawCall where
  layer : LayerSrc
  transform : Mat
  dx : ℚ
  dy : ℚ
  dw : ℚ
  dh : ℚ
deriving DecidableEq, Repr

/-- One `ctx.fillRect` call with the fill style in force. -/
structure FillRect where
  color : RGBA
  x : ℚ
  y : ℚ
  w : ℚ
  h : ℚ
deriving DecidableEq, Repr

/-- A canvas 2D context modelled as the trace of its drawing commands. -/
structure Ctx2D where
  ctm : Mat
  fillStyle : RGBA
  rects : List FillRect
  images : List DrawCall
deriving DecidableEq, Repr

def Ctx2D.new : Ctx2D := ⟨Mat.idm, ⟨0, 0, 0, 255⟩, [], []⟩

def Ctx2D.setFillStyle (c : Ctx2D) (col : RGBA) : Ctx2D :=
  { c with fillStyle := col }

def Ctx2D.fillRect (c : Ctx2D) (x y rw rh : ℚ) : Ctx2D :=
  { c with rects := c.rects ++ [⟨c.fillStyle, x, y, rw, rh⟩] }

def Ctx2D.translate (c : Ctx2D) (tx ty : ℚ) : Ctx2D :=
  { c with ctm := c.ctm.comp (Mat.translation tx ty) }

def Ctx2D.scale (c : Ctx2D) (sx sy : ℚ) : Ctx2D :=
  { c with ctm := c.ctm.comp (Mat.scaling sx sy) }

def Ctx2D.drawImage (c : Ctx2D) (l : LayerSrc) (dx dy dw dh : ℚ) : Ctx2D :=
  { c with images := c.images ++ [⟨l, c.ctm, dx, dy, dw, dh⟩] }

/-- The fixed on-screen viewport size in UI pixels (line 250). -/
def VIEWPORT_SIZE : ℚ := 500

/-- `handleSave` (lines 623-669) as the trace of canvas commands it
issues on the freshly created 1024×1024 export canvas: fill a black
background, translate to the output center, translate by the pan
rescaled from viewport space to output space, scale by the zoom, then
draw the source image and the drawing layer with
`drawWidth = outputSize * aspect`, `drawHeight = outputSize`.  The mask
canvas is never drawn. -/

def handleSave (naturalWidth naturalHeight : ℚ) (panx pany zoom : ℚ) : Ctx2D :=
  let outputSize : ℚ := 1024
  let c1 := (Ctx2D.new.setFillStyle ⟨0, 0, 0, 255⟩).fillRect 0 0 outputSize outputSize
  let scaleFactor := outputSize / VIEWPORT_SIZE
  let c2 := ((c1.translate (outputSize / 2) (outputSize / 2)).translate
      (panx * scaleFactor) (pany * scaleFactor)).scale zoom zoom
  let aspect := naturalWidth / naturalHeight
  let drawWidth := outputSize * aspect
  let drawHeight := outputSize
  let c3 := c2.drawImage .source (-drawWidth / 2) (-drawHeight / 2) drawWidth drawHeight
  c3.drawImage .drawing (-drawWidth / 2) (-drawHeight / 2) drawWidth drawHeight

/-- The mask layer of claim C1's scenario: a 20×20 opaque square
centered at (50,50) on a 100×100 buffer (pixels with both coordinates
in `[40, 60)`), alpha 255 inside the square and 0 outside. -/

def maskSquare : Nat → RGBA := fun p =>
  if 40 ≤ p % 100 ∧ p % 100 < 60 ∧ 40 ≤ p / 100 ∧ p / 100 < 60 then
    ⟨0, 0, 0, 255⟩
  else ⟨0, 0, 0, 0⟩

/-- A 1×1 session whose single drawing pixel is already opaque red, with
the initial blank snapshot in history: the state used to exhibit the
always-snapshotting bucket click. -/

def oneRedState : EditorState :=
  ⟨1, 1, fun _ => ⟨255, 0, 0, 255⟩, blankBuf, [blankSnap], 0⟩

/-- A concrete reachable session with two history entries and the
cursor at the last one: load a 1×1 image, paint it red, release. -/
def demoState : EditorState :=
  saveHistory { saveHistory (initialState 1 1) with
    drawing := fun _ => ⟨255, 0, 0, 255⟩, mask := blankBuf }

/-- A brush stroke followed by the pointer-up snapshot: the drawing
layer is replaced by the stroke result `d` and `saveHistory` runs
(`handleMouseUp`, lines 500-513). -/
def strokeThenSave (s : EditorState) (d : Nat → RGBA) : EditorState :=
  saveHistory { s with drawing := d }

theorem pidx_spec {w h : Nat} {x y : Int} (hin : inB w h x y) :
    pidx w x y < w * h ∧ ((pidx w x y : Nat) : Int) = y * w + x := by
  obtain ⟨hx0, hxw, hy0, hyh⟩ := hin
  have hnn : 0 ≤ y * w + x := by positivity
  have hcast : ((pidx w x y : Nat) : Int) = y * w + x := Int.toNat_of_nonneg hnn
  refine ⟨?_, hcast⟩
  have hlt : y * w + x < (w * h : Nat) := by
    have h1 : y + 1 ≤ (h : Int) := hyh
    have h2 : (y + 1) * w ≤ (h : Int) * w :=
      mul_le_mul_of_nonneg_right h1 (by positivity)
    push_cast
    nlinarith
  omega

-- Branch lemmas for one iteration of the flood-fill loop.

theorem flood_oob {w h : Nat} {target : Option RGBA} {C : RGBA}
    {mk : Nat → RGBA} {f : Nat} {pixels : Nat → RGBA} {cx cy : Int}
    {rest : List (Int × Int)}
    (hob : cx < 0 ∨ (w : Int) ≤ cx ∨ cy < 0 ∨ (h : Int) ≤ cy) :
    floodLoopFuel w h target C mk (f + 1) pixels ((cx, cy) :: rest) =
      floodLoopFuel w h target C mk f pixels rest := by
  simp only [floodLoopFuel, if_pos hob]

theorem flood_masked {w h : Nat} {target : Option RGBA} {C : RGBA}
    {mk : Nat → RGBA} {f : Nat} {pixels : Nat → RGBA} {cx cy : Int}
    {rest : List (Int × Int)}
    (hib : ¬(cx < 0 ∨ (w : Int) ≤ cx ∨ cy < 0 ∨ (h : Int) ≤ cy))
    (hmk : 10 < (mk (pidx w cx cy)).a) :
    floodLoopFuel w h target C mk (f + 1) pixels ((cx, cy) :: rest) =
      floodLoopFuel w h target C mk f pixels rest := by
  simp only [floodLoopFuel, if_neg hib, if_pos hmk]

theorem flood_fill {w h : Nat} {target : Option RGBA} {C : RGBA}
    {mk : Nat → RGBA} {f : Nat} {pixels : Nat → RGBA} {cx cy : Int}
    {rest : List (Int × Int)}
    (hib : ¬(cx < 0 ∨ (w : Int) ≤ cx ∨ cy < 0 ∨ (h : Int) ≤ cy))
    (hmk : ¬10 < (mk (pidx w cx cy)).a)
    (hmt : some (pixels (pidx w cx cy)) = target) :
    floodLoopFuel w h target C mk (f + 1) pixels ((cx, cy) :: rest) =
      floodLoopFuel w h target C mk f
        (updateBuf pixels (pidx w cx cy) C)
        ((cx, cy - 1) :: (cx, cy + 1) :: (cx - 1, cy) :: (cx + 1, cy) :: rest) := by
  simp only [floodLoopFuel, if_neg hib, if_neg hmk, if_pos hmt]

theorem flood_nomatch {w h : Nat} {target : Option RGBA} {C : RGBA}
    {mk : Nat → RGBA} {f : Nat} {pixels : Nat → RGBA} {cx cy : Int}
    {rest : List (Int × Int)}
    (hib : ¬(cx < 0 ∨ (w : Int) ≤ cx ∨ cy < 0 ∨ (h : Int) ≤ cy))
    (hmk : ¬10 < (mk (pidx w cx cy)).a)
    (hmt : ¬some (pixels (pidx w cx cy)) = target) :
    floodLoopFuel w h target C mk (f + 1) pixels ((cx, cy) :: rest) =
      floodLoopFuel w h target C mk f pixels rest := by
  simp only [floodLoopFuel, if_neg hib, if_neg hmk, if_neg hmt]

/-- Every pixel whose mask alpha exceeds 10 is untouched by the loop:
the mask test precedes the write, so a write only ever happens at a
position with mask alpha at most 10. -/

theorem flood_mask_preserved {w h : Nat} {target : Option RGBA} {C : RGBA}
    {mk : Nat → RGBA} :
    ∀ (f : Nat) (pixels : Nat → RGBA) (st : List (Int × Int)) (p : Nat),
      10 < (mk p).a →
      floodLoopFuel w h target C mk f pixels st p = pixels p := by
  intro f
  induction f with
  | zero => intro pixels st p _; rfl
  | succ f ih =>
    intro pixels st p hp
    match st with
    | [] => rfl
    | (cx, cy) :: rest =>
      by_cases hib : cx < 0 ∨ (w : Int) ≤ cx ∨ cy < 0 ∨ (h : Int) ≤ cy
      · rw [flood_oob hib]; exact ih pixels rest p hp
      · by_cases hmk : 10 < (mk (pidx w cx cy)).a
        · rw [flood_masked hib hmk]; exact ih pixels rest p hp
        · by_cases hmt : some (pixels (pidx w cx cy)) = target
          · rw [flood_fill hib hmk hmt]
            have hne : p ≠ pidx w cx cy := by
              intro heq; rw [heq] at hp; exact hmk hp
            rw [ih _ _ p hp]
            simp [updateBuf, hne]
          · rw [flood_nomatch hib hmk hmt]; exact ih pixels rest p hp

/-- Once a pixel holds the fill color, it keeps it: every write of the
loop writes `C`. -/

theorem flood_persist {w h : Nat} {target : Option RGBA} {C : RGBA}
    {mk : Nat → RGBA} :
    ∀ (f : Nat) (pixels : Nat → RGBA) (st : List (Int × Int)) (p : Nat),
      pixels p = C →
      floodLoopFuel w h target C mk f pixels st p = C := by
  intro f
  induction f with
  | zero => intro pixels st p hp; exact hp
  | succ f ih =>
    intro pixels st p hp
    match st with
    | [] => exact hp
    | (cx, cy) :: rest =>
      by_cases hib : cx < 0 ∨ (w : Int) ≤ cx ∨ cy < 0 ∨ (h : Int) ≤ cy
      · rw [flood_oob hib]; exact ih pixels rest p hp
      · by_cases hmk : 10 < (mk (pidx w cx cy)).a
        · rw [flood_masked hib hmk]; exact ih pixels rest p hp
        · by_cases hmt : some (pixels (pidx w cx cy)) = target
          · rw [flood_fill hib hmk hmt]
            refine ih _ _ p ?_
            by_cases hpe : p = pidx w cx cy <;> simp [updateBuf, hpe, hp]
          · rw [flood_nomatch hib hmk hmt]; exact ih pixels rest p hp

/-- The loop on an empty stack returns the buffer unchanged, for any fuel. -/
theorem flood_nil {w h : Nat} {target : Option RGBA} {C : RGBA}
    {mk : Nat → RGBA} (f : Nat) (pixels : Nat → RGBA) :
    floodLoopFuel w h target C mk f pixels [] = pixels := by
  cases f <;> rfl

theorem bucket_fuel_eq (w h : Nat) : 5 * (w * h) + 2 = (5 * (w * h) + 1) + 1 := rfl

theorem seed_in_range {w h : Nat} {sx sy : Int} (hin : inB w h sx sy) :
    0 ≤ sy * (w : Int) + sx ∧ sy * (w : Int) + sx < ((w * h : Nat) : Int) := by
  have h2 := pidx_spec hin
  obtain ⟨hx0, hxw, hy0, hyh⟩ := hin
  have h1 : 0 ≤ sy * (w : Int) := mul_nonneg hy0 (Int.ofNat_nonneg w)
  omega

theorem seed_not_skipped {w h : Nat} {sx sy : Int} (hin : inB w h sx sy) :
    ¬(sx < 0 ∨ (w : Int) ≤ sx ∨ sy < 0 ∨ (h : Int) ≤ sy) := by
  obtain ⟨hx0, hxw, hy0, hyh⟩ := hin
  omega

/-- Masked pixels (mask alpha strictly greater than 10) are never altered
by `handleBucketFill`. -/

theorem bucket_mask_preserved (w h : Nat) (pixels mk : Nat → RGBA)
    (sx sy : Int) (r g b : Nat) (p : Nat) (hp : 10 < (mk p).a) :
    handleBucketFill w h pixels mk sx sy r g b p = pixels p := by
  simp only [handleBucketFill]
  split <;> split
  · rfl
  · exact flood_mask_preserved _ _ _ _ hp
  · rfl
  · exact flood_mask_preserved _ _ _ _ hp

/-- A seed outside the buffer bounds makes `handleBucketFill` return the
drawing buffer unchanged: either the early same-color return fires (via
an aliased in-range read), or the single stack entry fails the loop's
bounds check and the loop ends with an empty stack. -/

theorem bucket_oob_seed (w h : Nat) (pixels mk : Nat → RGBA)
    (sx sy : Int) (r g b : Nat) (hn : ¬inB w h sx sy) :
    handleBucketFill w h pixels mk sx sy r g b = pixels := by
  have hob : sx < 0 ∨ (w : Int) ≤ sx ∨ sy < 0 ∨ (h : Int) ≤ sy := by
    unfold inB at hn; omega
  simp only [handleBucketFill]
  split <;> split
  · rfl
  · rw [bucket_fuel_eq, flood_oob hob, flood_nil]
  · rfl
  · rw [bucket_fuel_eq, flood_oob hob, flood_nil]

/-- A seed whose mask alpha exceeds 10 makes the fill a no-op: the seed
is popped first and discarded by the mask check, emptying the stack. -/

theorem bucket_masked_seed (w h : Nat) (pixels mk : Nat → RGBA)
    (sx sy : Int) (r g b : Nat) (hin : inB w h sx sy)
    (hmk : 10 < (mk (pidx w sx sy)).a) :
    handleBucketFill w h pixels mk sx sy r g b = pixels := by
  have hib := seed_not_skipped hin
  simp only [handleBucketFill]
  split <;> split
  · rfl
  · rw [bucket_fuel_eq, flood_masked hib hmk, flood_nil]
  · rfl
  · rw [bucket_fuel_eq, flood_masked hib hmk, flood_nil]

/-- An in-bounds seed whose drawing pixel already equals the fill color
makes the fill a no-op (the early return at line 588). -/

theorem bucket_same_color (w h : Nat) (pixels mk : Nat → RGBA)
    (sx sy : Int) (r g b : Nat) (hin : inB w h sx sy)
    (heq : pixels (pidx w sx sy) = ⟨r, g, b, 255⟩) :
    handleBucketFill w h pixels mk sx sy r g b = pixels := by
  have hk := seed_in_range hin
  simp only [handleBucketFill]
  rw [if_pos hk, if_pos (congrArg some heq)]

/-- An in-bounds, unmasked seed whose pixel differs from the fill color
ends up holding the fill color: the first iteration writes it, and every
later write also writes the fill color. -/

theorem bucket_seed_filled (w h : Nat) (pixels mk : Nat → RGBA)
    (sx sy : Int) (r g b : Nat) (hin : inB w h sx sy)
    (hmk : ¬10 < (mk (pidx w sx sy)).a)
    (hne : pixels (pidx w sx sy) ≠ ⟨r, g, b, 255⟩) :
    handleBucketFill w h pixels mk sx sy r g b (pidx w sx sy) = ⟨r, g, b, 255⟩ := by
  have hk := seed_in_range hin
  have hib := seed_not_skipped hin
  simp only [handleBucketFill]
  rw [if_pos hk, if_neg (by simpa using hne), bucket_fuel_eq,
    flood_fill hib hmk rfl]
  exact flood_persist _ _ _ _ (by simp [updateBuf])

/-- Running the bucket fill twice with the same seed and color gives the
same buffer as running it once: after the first run the seed pixel
either already equalled the fill color (early return, buffer returned
as-is), was masked or out of bounds (fill was a no-op), or was written
to the fill color, so the second run's early return fires. -/

theorem bucket_idem (w h : Nat) (pixels mk : Nat → RGBA)
    (sx sy : Int) (r g b : Nat) (hin : inB w h sx sy) :
    handleBucketFill w h (handleBucketFill w h pixels mk sx sy r g b)
      mk sx sy r g b = handleBucketFill w h pixels mk sx sy r g b := by
  by_cases heq : pixels (pidx w sx sy) = ⟨r, g, b, 255⟩
  · rw [bucket_same_color w h pixels mk sx sy r g b hin heq,
      bucket_same_color w h pixels mk sx sy r g b hin heq]
  · by_cases hmk : 10 < (mk (pidx w sx sy)).a
    · rw [bucket_masked_seed w h pixels mk sx sy r g b hin hmk,
        bucket_masked_seed w h pixels mk sx sy r g b hin hmk]
    · exact bucket_same_color w h _ mk sx sy r g b hin
        (bucket_seed_filled w h pixels mk sx sy r g b hin hmk heq)

theorem cntTarget_le (w h : Nat) (target : Option RGBA) (pixels : Nat → RGBA) :
    cntTarget w h target pixels ≤ w * h := by
  have h1 := List.countP_le_length
    (p := fun p => decide (some (pixels p) = target)) (l := List.range (w * h))
  simpa [cntTarget] using h1

theorem countP_flip {q : Nat} (f fq : Nat → Bool) (hft : f q = true)
    (hff : fq q = false) (hcong : ∀ x, x ≠ q → fq x = f x) :
    ∀ l : List Nat, q ∈ l → l.Nodup → l.countP fq + 1 = l.countP f := by
  intro l
  induction l with
  | nil => intro hq _; cases hq
  | cons a tl ih =>
    intro hq hnd
    obtain ⟨hanotin, hndtl⟩ := List.nodup_cons.mp hnd
    rw [List.countP_cons, List.countP_cons]
    rcases List.mem_cons.mp hq with heq | hq2
    · subst heq
      have htl : tl.countP fq = tl.countP f :=
        List.countP_congr fun x hx => by
          rw [hcong x fun hxe => hanotin (hxe ▸ hx)]
      rw [htl, hft, hff]
      simp
    · have hne : a ≠ q := fun he => hanotin (he ▸ hq2)
      rw [hcong a hne]
      have h2 := ih hq2 hndtl
      by_cases hfa : f a = true <;> simp [hfa] <;> omega

theorem cntTarget_update {w h : Nat} {target : Option RGBA} {C : RGBA}
    {pixels : Nat → RGBA} {pos : Nat} (hlt : pos < w * h)
    (hmt : some (pixels pos) = target) (hC : ¬some C = target) :
    cntTarget w h target (updateBuf pixels pos C) + 1 =
      cntTarget w h target pixels := by
  refine countP_flip _ _ ?_ ?_ ?_ (List.range (w * h))
    (List.mem_range.mpr hlt) (List.nodup_range _)
  · simpa using hmt
  · simp [updateBuf, hC]
  · intro x hx
    simp [updateBuf, hx]

/-- Coordinates determine the flat index injectively inside the buffer. -/
theorem pidx_inj {w h : Nat} {x y u v : Int} (h1 : inB w h x y)
    (h2 : inB w h u v) (heq : pidx w x y = pidx w u v) : x = u ∧ y = v := by
  have a1 := pidx_spec h1
  have a2 := pidx_spec h2
  have heq2 : y * (w : Int) + x = v * w + u := by
    rw [← a1.2, ← a2.2, heq]
  obtain ⟨hx0, hxw, hy0, hyh⟩ := h1
  obtain ⟨hu0, huw, hv0, hvh⟩ := h2
  have hd : (y - v) * (w : Int) = u - x := by linear_combination heq2
  have hyv : y = v := by
    rcases lt_trichotomy y v with hlt | heqy | hgt
    · exfalso
      have hge : 1 * (w : Int) ≤ (v - y) * w :=
        mul_le_mul_of_nonneg_right (by omega) (by omega)
      have hflip : (v - y) * (w : Int) = x - u := by linear_combination -hd
      omega
    · exact heqy
    · exfalso
      have hge : 1 * (w : Int) ≤ (y - v) * w :=
        mul_le_mul_of_nonneg_right (by omega) (by omega)
      omega
  subst hyv
  constructor
  · have : (y - y) * (w : Int) = 0 := by ring
    omega
  · rfl

theorem adj_mem_pushes {cx cy u v : Int} {rest : List (Int × Int)}
    (hadj : adjP cx cy u v) :
    (u, v) ∈ (cx, cy - 1) :: (cx, cy + 1) :: (cx - 1, cy) :: (cx + 1, cy) :: rest := by
  rcases hadj with ⟨hu, hv⟩ | ⟨hu, hv⟩ | ⟨hu, hv⟩ | ⟨hu, hv⟩ <;>
    subst hu <;> subst hv <;> simp

theorem mem_rest_pushes {cx cy u v : Int} {rest : List (Int × Int)}
    (hm : (u, v) ∈ rest) :
    (u, v) ∈ (cx, cy - 1) :: (cx, cy + 1) :: (cx - 1, cy) :: (cx + 1, cy) :: rest := by
  simp only [List.mem_cons]
  tauto

/-- Main completeness lemma: with an all-passable mask and enough fuel,
the loop starting from a state satisfying the invariant produces a
buffer in which the seed is filled and the filled set is closed under
in-bounds 4-adjacency. -/

theorem flood_complete (w h : Nat) (t C : RGBA) (mk : Nat → RGBA) (sx sy : Int)
    (hmask : ∀ p, (mk p).a ≤ 10) (htC : t ≠ C) :
    ∀ (f : Nat) (pixels : Nat → RGBA) (st : List (Int × Int)),
      fillMeasure w h (some t) pixels st < f →
      fillInv w h t C sx sy pixels st →
      fillPost w h C sx sy (floodLoopFuel w h (some t) C mk f pixels st) := by
  intro f
  induction f with
  | zero => intro pixels st hm _; omega
  | succ f ih =>
    intro pixels st hm hinv
    obtain ⟨inv1, inv2, inv3, hseed⟩ := hinv
    match st with
    | [] =>
      rw [flood_nil]
      refine ⟨?_, ?_⟩
      · rcases inv3 with h3 | h3
        · cases h3
        · exact h3
      · intro x y hxy hC u v hadj huv
        rcases inv2 x y hxy hC u v hadj huv with hc | hmem
        · exact hc
        · cases hmem
    | (cx, cy) :: rest =>
      by_cases hib : cx < 0 ∨ (w : Int) ≤ cx ∨ cy < 0 ∨ (h : Int) ≤ cy
      · rw [flood_oob hib]
        refine ih pixels rest ?_ ⟨inv1, ?_, ?_, hseed⟩
        · simp only [fillMeasure, List.length_cons] at hm ⊢
          omega
        · intro x y hxy hC u v hadj huv
          rcases inv2 x y hxy hC u v hadj huv with hc | hmem
          · exact Or.inl hc
          · rcases List.mem_cons.mp hmem with heq | hmem2
            · exfalso
              obtain ⟨he1, he2⟩ := Prod.mk.injEq .. ▸ heq
              obtain ⟨b1, b2, b3, b4⟩ := huv
              omega
            · exact Or.inr hmem2
        · rcases inv3 with hmem | hfill
          · rcases List.mem_cons.mp hmem with heq | hmem2
            · exfalso
              obtain ⟨he1, he2⟩ := Prod.mk.injEq .. ▸ heq
              obtain ⟨b1, b2, b3, b4⟩ := hseed
              omega
            · exact Or.inl hmem2
          · exact Or.inr hfill
      · have hinb : inB w h cx cy := by
          unfold inB; omega
        by_cases hmk2 : 10 < (mk (pidx w cx cy)).a
        · exact absurd hmk2 (by have := hmask (pidx w cx cy); omega)
        · by_cases hmt : some (pixels (pidx w cx cy)) = some t
          · rw [flood_fill hib hmk2 hmt]
            have hposlt : pidx w cx cy < w * h := (pidx_spec hinb).1
            have hCs : ¬some C = some t := by
              intro hcc
              exact htC (Option.some.inj hcc).symm
            have hcnt := cntTarget_update (C := C) hposlt
              (by exact hmt) hCs
            refine ih _ _ ?_ ⟨?_, ?_, ?_, hseed⟩
            · simp only [fillMeasure, List.length_cons] at hm ⊢
              omega
            · intro p hp
              by_cases hpe : p = pidx w cx cy
              · subst hpe; right; simp [updateBuf]
              · have h1 := inv1 p hp
                simp only [updateBuf]
                rw [if_neg hpe]
                exact h1
            · intro x y hxy hC2 u v hadj huv
              by_cases hold : pixels (pidx w x y) = C
              · rcases inv2 x y hxy hold u v hadj huv with hc | hmem
                · left
                  simp only [updateBuf]
                  split
                  · rfl
                  · exact hc
                · rcases List.mem_cons.mp hmem with heq | hmem2
                  · left
                    obtain ⟨he1, he2⟩ := Prod.mk.injEq .. ▸ heq
                    subst he1; subst he2
                    simp [updateBuf]
                  · exact Or.inr (mem_rest_pushes hmem2)
              · have hpp : pidx w x y = pidx w cx cy := by
                  by_contra hne
                  apply hold
                  have h5 := hC2
                  simp only [updateBuf] at h5
                  rwa [if_neg hne] at h5
                obtain ⟨he1, he2⟩ := pidx_inj hxy hinb hpp
                subst he1; subst he2
                exact Or.inr (adj_mem_pushes hadj)
            · rcases inv3 with hmem | hfill
              · rcases List.mem_cons.mp hmem with heq | hmem2
                · right
                  obtain ⟨he1, he2⟩ := Prod.mk.injEq .. ▸ heq
                  subst he1; subst he2
                  simp [updateBuf]
                · exact Or.inl (mem_rest_pushes hmem2)
              · right
                simp only [updateBuf]
                split
                · rfl
                · exact hfill
          · rw [flood_nomatch hib hmk2 hmt]
            have hisC : pixels (pidx w cx cy) = C := by
              rcases inv1 (pidx w cx cy) (pidx_spec hinb).1 with ht2 | hc
              · exact absurd (congrArg some ht2) hmt
              · exact hc
            refine ih pixels rest ?_ ⟨inv1, ?_, ?_, hseed⟩
            · simp only [fillMeasure, List.length_cons] at hm ⊢
              omega
            · intro x y hxy hC2 u v hadj huv
              rcases inv2 x y hxy hC2 u v hadj huv with hc | hmem
              · exact Or.inl hc
              · rcases List.mem_cons.mp hmem with heq | hmem2
                · left
                  obtain ⟨he1, he2⟩ := Prod.mk.injEq .. ▸ heq
                  subst he1; subst he2
                  exact hisC
                · exact Or.inr hmem2
            · rcases inv3 with hmem | hfill
              · rcases List.mem_cons.mp hmem with heq | hmem2
                · right
                  obtain ⟨he1, he2⟩ := Prod.mk.injEq .. ▸ heq
                  subst he1; subst he2
                  exact hisC
                · exact Or.inl hmem2
              · exact Or.inr hfill

/-- From the closure property delivered by the drained loop, walking the
grid row-by-row and column-by-column shows that every in-bounds pixel is
filled (the whole board is 4-connected). -/

theorem post_fills_all (w h : Nat) (C : RGBA) (sx sy : Int)
    (pixels : Nat → RGBA) (hseed : inB w h sx sy)
    (hpost : fillPost w h C sx sy pixels) :
    ∀ x y : Int, inB w h x y → pixels (pidx w x y) = C := by
  obtain ⟨hseedC, hclosed⟩ := hpost
  have hup : ∀ k : Nat, inB w h sx (sy + k) →
      pixels (pidx w sx (sy + k)) = C := by
    intro k
    induction k with
    | zero => intro _; simpa using hseedC
    | succ k ih =>
      intro hin
      have hin2 : inB w h sx (sy + k) := by
        obtain ⟨a1, a2, a3, a4⟩ := hin
        obtain ⟨b1, b2, b3, b4⟩ := hseed
        refine ⟨b1, b2, by omega, by omega⟩
      have hadj : adjP sx (sy + k) sx (sy + ((k : Nat) + 1 : Nat)) := by
        unfold adjP
        refine Or.inr (Or.inr (Or.inl ⟨rfl, ?_⟩))
        push_cast
        ring
      exact hclosed sx (sy + k) hin2 (ih hin2) sx (sy + ((k : Nat) + 1 : Nat)) hadj hin
  have hdown : ∀ k : Nat, inB w h sx (sy - k) →
      pixels (pidx w sx (sy - k)) = C := by
    intro k
    induction k with
    | zero => intro _; simpa using hseedC
    | succ k ih =>
      intro hin
      have hin2 : inB w h sx (sy - k) := by
        obtain ⟨a1, a2, a3, a4⟩ := hin
        obtain ⟨b1, b2, b3, b4⟩ := hseed
        refine ⟨b1, b2, by omega, by omega⟩
      have hadj : adjP sx (sy - k) sx (sy - ((k : Nat) + 1 : Nat)) := by
        unfold adjP
        refine Or.inr (Or.inr (Or.inr ⟨rfl, ?_⟩))
        push_cast
        ring
      exact hclosed sx (sy - k) hin2 (ih hin2) sx (sy - ((k : Nat) + 1 : Nat)) hadj hin
  have hcol : ∀ y : Int, inB w h sx y → pixels (pidx w sx y) = C := by
    intro y hin
    rcases le_or_lt sy y with hle | hlt
    · have hk : y = sy + ((y - sy).toNat : Nat) := by omega
      rw [hk] at hin ⊢
      exact hup _ hin
    · have hk : y = sy - ((sy - y).toNat : Nat) := by omega
      rw [hk] at hin ⊢
      exact hdown _ hin
  have hright : ∀ (k : Nat) (y : Int), inB w h (sx + k) y →
      pixels (pidx w (sx + k) y) = C := by
    intro k
    induction k with
    | zero =>
      intro y hin
      have hin2 : inB w h sx y := by simpa using hin
      simpa using hcol y hin2
    | succ k ih =>
      intro y hin
      have hin2 : inB w h (sx + k) y := by
        obtain ⟨a1, a2, a3, a4⟩ := hin
        obtain ⟨b1, b2, b3, b4⟩ := hseed
        refine ⟨by omega, by omega, a3, a4⟩
      have hadj : adjP (sx + k) y (sx + ((k : Nat) + 1 : Nat)) y := by
        unfold adjP
        refine Or.inl ⟨?_, rfl⟩
        push_cast
        ring
      exact hclosed (sx + k) y hin2 (ih y hin2) (sx + ((k : Nat) + 1 : Nat)) y hadj hin
  have hleft : ∀ (k : Nat) (y : Int), inB w h (sx - k) y →
      pixels (pidx w (sx - k) y) = C := by
    intro k
    induction k with
    | zero =>
      intro y hin
      have hin2 : inB w h sx y := by simpa using hin
      simpa using hcol y hin2
    | succ k ih =>
      intro y hin
      have hin2 : inB w h (sx - k) y := by
        obtain ⟨a1, a2, a3, a4⟩ := hin
        obtain ⟨b1, b2, b3, b4⟩ := hseed
        refine ⟨by omega, by omega, a3, a4⟩
      have hadj : adjP (sx - k) y (sx - ((k : Nat) + 1 : Nat)) y := by
        unfold adjP
        refine Or.inr (Or.inl ⟨?_, rfl⟩)
        push_cast
        ring
      exact hclosed (sx - k) y hin2 (ih y hin2) (sx - ((k : Nat) + 1 : Nat)) y hadj hin
  intro x y hin
  rcases le_or_lt sx x with hle | hlt
  · have hk : x = sx + ((x - sx).toNat : Nat) := by omega
    rw [hk] at hin ⊢
    exact hright _ y hin
  · have hk : x = sx - ((sx - x).toNat : Nat) := by omega
    rw [hk] at hin ⊢
    exact hleft _ y hin

/-- On a buffer of uniform color `t` with an everywhere-passable mask, an
in-bounds bucket fill with a color different from `t` turns every
in-bounds pixel into the fill color. -/

theorem bucket_fills_uniform (w h : Nat) (pixels mk : Nat → RGBA) (t : RGBA)
    (sx sy : Int) (r g b : Nat)
    (hu : ∀ p, pixels p = t) (hmask : ∀ p, (mk p).a ≤ 10)
    (htC : t ≠ ⟨r, g, b, 255⟩) (hseed : inB w h sx sy) :
    ∀ x y : Int, inB w h x y →
      handleBucketFill w h pixels mk sx sy r g b (pidx w x y) = ⟨r, g, b, 255⟩ := by
  intro x y hxy
  have hk := seed_in_range hseed
  have hguard : ¬some (pixels (pidx w sx sy)) = some (⟨r, g, b, 255⟩ : RGBA) := by
    rw [hu]
    simpa using htC
  simp only [handleBucketFill]
  rw [if_pos hk, if_neg hguard, hu (pidx w sx sy)]
  have hm : fillMeasure w h (some t) pixels [(sx, sy)] < 5 * (w * h) + 2 := by
    have hle := cntTarget_le w h (some t) pixels
    simp only [fillMeasure, List.length_singleton]
    omega
  have hinv : fillInv w h t ⟨r, g, b, 255⟩ sx sy pixels [(sx, sy)] := by
    refine ⟨fun p _ => Or.inl (hu p), ?_, Or.inl (by simp), hseed⟩
    intro a2 b2 _ hC u v _ _
    exact absurd ((hu (pidx w a2 b2)).symm.trans hC) htC
  have hcomp := flood_complete w h t ⟨r, g, b, 255⟩ mk sx sy hmask htC
    (5 * (w * h) + 2) pixels [(sx, sy)] hm hinv
  exact post_fills_all w h ⟨r, g, b, 255⟩ sx sy _ hseed hcomp x y hxy

/-- Behaviour of one `saveHistory` from a state satisfying the history
invariant: the new length, cursor position, last entry, and the
truncation-free special case. -/
theorem saveHistory_spec (s : EditorState) (h1 : -1 ≤ s.historyStep)
    (h2 : s.historyStep < (s.history.length : Int))
    (h3 : s.history.length ≤ 20) :
    (saveHistory s).history.length = min ((s.historyStep + 1).toNat + 1) 20 ∧
    (saveHistory s).historyStep = ((saveHistory s).history.length : Int) - 1 ∧
    (saveHistory s).history.getLast? = some ⟨s.drawing, s.mask⟩ ∧
    (s.historyStep = (s.history.length : Int) - 1 ∧ s.history.length < 20 →
      (saveHistory s).history = s.history ++ [⟨s.drawing, s.mask⟩]) := by
  have hslice : jsSlice0 s.history (s.historyStep + 1) =
      s.history.take (s.historyStep + 1).toNat := by
    unfold jsSlice0
    rw [if_neg (by omega)]
  have hlen : (jsSlice0 s.history (s.historyStep + 1)).length =
      (s.historyStep + 1).toNat := by
    rw [hslice, List.length_take]
    omega
  refine ⟨?_, rfl, ?_, ?_⟩
  · simp only [saveHistory]
    split
    · rename_i hbig
      simp only [List.length_append, List.length_singleton] at hbig
      rw [List.length_drop]
      simp only [List.length_append, List.length_singleton]
      omega
    · rename_i hsmall
      simp only [List.length_append, List.length_singleton] at hsmall
      simp only [List.length_append, List.length_singleton]
      omega
  · simp only [saveHistory]
    split
    · rename_i hbig
      simp only [List.length_append, List.length_singleton] at hbig
      have hL1 : 1 ≤ (jsSlice0 s.history (s.historyStep + 1)).length := by omega
      rw [List.drop_append_of_le_length hL1]
      exact List.getLast?_concat _
    · exact List.getLast?_concat _
  · rintro ⟨hc1, hc2⟩
    have ht : (s.historyStep + 1).toNat = s.history.length := by omega
    simp only [saveHistory]
    rw [if_neg (by
      simp only [List.length_append, List.length_singleton]
      omega)]
    rw [hslice, ht, List.take_length]

/-- The history invariant holds in every reachable state:
`-1 ≤ historyStep < history.length` (with `-1 < 0` covering the empty
history) and the retained depth never exceeds 20. -/

theorem reachable_inv {s : EditorState} (hs : Reachable s) :
    -1 ≤ s.historyStep ∧ s.historyStep < (s.history.length : Int) ∧
      s.history.length ≤ 20 := by
  induction hs with
  | init w h =>
    refine ⟨le_refl _, ?_, ?_⟩
    · show (-1 : Int) < ((List.length ([] : List Snapshot) : Nat) : Int)
      simp
    · show List.length ([] : List Snapshot) ≤ 20
      simp
  | canvas s d m hr ih => exact ih
  | save s hr ih =>
    obtain ⟨i1, i2, i3⟩ := ih
    obtain ⟨l1, l2, _, _⟩ := saveHistory_spec s i1 i2 i3
    refine ⟨?_, ?_, ?_⟩
    · rw [l2]
      omega
    · rw [l2]
      omega
    · rw [l1]
      omega
  | undo s hr ih =>
    obtain ⟨i1, i2, i3⟩ := ih
    unfold handleUndo
    split
    · rename_i hpos
      refine ⟨?_, ?_, ?_⟩
      · show -1 ≤ s.historyStep - 1
        omega
      · show s.historyStep - 1 < (s.history.length : Int)
        omega
      · exact i3
    · split
      · rename_i hzero
        refine ⟨?_, ?_, ?_⟩
        · show -1 ≤ (-1 : Int)
          exact le_refl _
        · show (-1 : Int) < (s.history.length : Int)
          omega
        · exact i3
      · exact ⟨i1, i2, i3⟩

@[simp] theorem saveHistory_width (s : EditorState) :
    (saveHistory s).width = s.width := rfl

@[simp] theorem saveHistory_height (s : EditorState) :
    (saveHistory s).height = s.height := rfl

@[simp] theorem saveHistory_drawing (s : EditorState) :
    (saveHistory s).drawing = s.drawing := rfl

@[simp] theorem saveHistory_mask (s : EditorState) :
    (saveHistory s).mask = s.mask := rfl

theorem EditorState.set_drawing_self (t : EditorState) (d : Nat → RGBA)
    (hd : t.drawing = d) : { t with drawing := d } = t := by
  cases t
  cases hd
  rfl

/-- Claim C1, counterexample to the claim as stated: in the scenario
(100×100 transparent drawing layer, 20×20 opaque mask square centered
at (50,50), fill at seed (50,50) with opaque red) the unmasked pixel
(0,0) does NOT become red - the seed itself is masked, the first loop
iteration discards it, and the fill is a total no-op. -/

theorem c1_counterexample :
    handleBucketFill 100 100 blankBuf maskSquare 50 50 255 0 0 (pidx 100 0 0) =
        ⟨0, 0, 0, 0⟩ ∧
      (⟨0, 0, 0, 0⟩ : RGBA) ≠ ⟨255, 0, 0, 255⟩ := by
  constructor
  · rfl
  · decide

/-- Claim C1 (amended): flood fill never alters a pixel whose mask-layer
alpha exceeds the barrier threshold 10 - for all masked pixels the
drawing-layer RGBA is identical before and after the fill.  In the
claimed 20×20-mask-square scenario the seed (50,50) lies inside the
opaque square, so the fill is a complete no-op: all 10,000 pixels (the
400 masked ones and the 9,600 unmasked ones alike) keep their
transparent color; the unmasked pixels do not turn red. -/

theorem c1_mask_barrier (w h : Nat) (pixels mk : Nat → RGBA)
    (sx sy : Int) (r g b : Nat) (p : Nat) (hp : 10 < (mk p).a) :
    handleBucketFill w h pixels mk sx sy r g b p = pixels p ∧
      handleBucketFill 100 100 blankBuf maskSquare 50 50 255 0 0 = blankBuf :=
  ⟨bucket_mask_preserved w h pixels mk sx sy r g b p hp, rfl⟩

/-- Witness for C1's amended theorem at a concrete input: a 2×2 buffer
whose pixel 3 is masked with alpha 200 stays untouched by a fill at
(0,0). -/

theorem c1_witness :
    10 < (((fun _ => ⟨0, 255, 100, 200⟩) : Nat → RGBA) 3).a ∧
      handleBucketFill 2 2 blankBuf (fun _ => ⟨0, 255, 100, 200⟩) 0 0 255 0 0 3 =
        blankBuf 3 :=
  ⟨by decide,
    (c1_mask_barrier 2 2 blankBuf (fun _ => ⟨0, 255, 100, 200⟩) 0 0 255 0 0 3
      (by decide)).1⟩

/-- Claim C10: the barrier threshold is exactly `mask alpha > 10`.  A
pixel with mask alpha strictly greater than 10 is never altered (an
impassable wall); a pixel with mask alpha at most 10 - including the
nonzero values 1..10 - is not protected: an in-bounds seed with mask
alpha at most 10 whose color differs from the fill color is filled. -/

theorem c10_barrier_threshold (w h : Nat) (pixels mk : Nat → RGBA)
    (sx sy : Int) (r g b : Nat) :
    (∀ p, 10 < (mk p).a →
      handleBucketFill w h pixels mk sx sy r g b p = pixels p) ∧
    (inB w h sx sy → ¬10 < (mk (pidx w sx sy)).a →
      pixels (pidx w sx sy) ≠ ⟨r, g, b, 255⟩ →
      handleBucketFill w h pixels mk sx sy r g b (pidx w sx sy) = ⟨r, g, b, 255⟩) :=
  ⟨fun p hp => bucket_mask_preserved w h pixels mk sx sy r g b p hp,
   fun hin hmk hne => bucket_seed_filled w h pixels mk sx sy r g b hin hmk hne⟩

/-- Witness for C10 at a concrete input: a mask with the nonzero alpha
10 everywhere does not protect the seed pixel - it is filled anyway. -/

theorem c10_witness :
    inB 1 1 0 0 ∧ ¬10 < (((fun _ => ⟨0, 0, 0, 10⟩) : Nat → RGBA) (pidx 1 0 0)).a ∧
      blankBuf (pidx 1 0 0) ≠ ⟨255, 0, 0, 255⟩ ∧
      handleBucketFill 1 1 blankBuf (fun _ => ⟨0, 0, 0, 10⟩) 0 0 255 0 0
        (pidx 1 0 0) = ⟨255, 0, 0, 255⟩ :=
  ⟨by decide, by decide, by decide,
    (c10_barrier_threshold 1 1 blankBuf (fun _ => ⟨0, 0, 0, 10⟩) 0 0 255 0 0).2
      (by decide) (by decide) (by decide)⟩

/-- Claim C9: a bucket fill whose seed lies outside the buffer bounds is
a no-op, not an error.  The seed-color read is not bounds-checked (it
yields `undefined`, or an aliased pixel, in the source), but the loop's
bounds check discards the only stack entry before any write, so the
function terminates with every drawing-layer pixel unchanged, and the
pointer-down handler leaves the mask layer untouched as well. -/

theorem c9_oob_seed_noop (s : EditorState) (sx sy : Int) (r g b : Nat)
    (hn : ¬inB s.width s.height sx sy) :
    handleBucketFill s.width s.height s.drawing s.mask sx sy r g b = s.drawing ∧
      (bucketDown s sx sy r g b).drawing = s.drawing ∧
      (bucketDown s sx sy r g b).mask = s.mask := by
  have h1 := bucket_oob_seed s.width s.height s.drawing s.mask sx sy r g b hn
  exact ⟨h1, h1, rfl⟩

/-- Witness for C9 at a concrete input: seed (5,0) outside a 2×2 buffer. -/
theorem c9_witness :
    ¬inB 2 2 5 0 ∧
      handleBucketFill 2 2 (initialState 2 2).drawing (initialState 2 2).mask
          5 0 255 0 0 = (initialState 2 2).drawing ∧
      (bucketDown (initialState 2 2) 5 0 255 0 0).drawing =
        (initialState 2 2).drawing :=
  ⟨by decide,
    (c9_oob_seed_noop (initialState 2 2) 5 0 255 0 0 (by decide)).1,
    (c9_oob_seed_noop (initialState 2 2) 5 0 255 0 0 (by decide)).2.1⟩

/-- Claim C2, counterexample to the claim as stated: the claim says the
second identical flood fill "pushes no new history snapshot", but in the
source every bucket pointer-down calls `saveHistory` after the fill,
even when the same-color guard makes the fill itself a no-op.  On a 1×1
buffer already holding the fill color, the second bucket click changes
no pixel yet grows the history from 2 to 3 entries. -/

theorem c2_counterexample :
    (bucketDown oneRedState 0 0 255 0 0).drawing (pidx 1 0 0) =
        oneRedState.drawing (pidx 1 0 0) ∧
      (bucketDown oneRedState 0 0 255 0 0).history.length = 2 ∧
      (bucketDown (bucketDown oneRedState 0 0 255 0 0) 0 0 255 0 0).history.length = 3 := by
  refine ⟨?_, ?_, ?_⟩ <;> rfl

/-- A second bucket click with the same seed and color snapshots the
unchanged canvas: the flood fill is idempotent, so the second
pointer-down is exactly a `saveHistory` of the first click's state. -/

theorem bucketDown_twice (s : EditorState) (sx sy : Int) (r g b : Nat)
    (hin : inB s.width s.height sx sy) :
    bucketDown (bucketDown s sx sy r g b) sx sy r g b =
      saveHistory (bucketDown s sx sy r g b) :=
  congrArg saveHistory (EditorState.set_drawing_self _ _
    (bucket_idem s.width s.height s.drawing s.mask sx sy r g b hin).symm)

/-- Claim C2 (amended): with an in-bounds seed whose drawing pixel
already equals the fill color exactly, `handleBucketFill` itself is a
no-op - it returns the drawing buffer unchanged and touches no history
state - and running the fill twice always equals running it once
(pixel-level idempotence).  However, the enclosing bucket pointer-down
still pushes one history snapshot per click, so the second click leaves
every pixel unchanged but appends one more snapshot whose content equals
the buffer already saved by the first click. -/

theorem c2_same_color_idempotent (s : EditorState) (sx sy : Int) (r g b : Nat)
    (hin : inB s.width s.height sx sy)
    (h1 : -1 ≤ s.historyStep) (h2 : s.historyStep < (s.history.length : Int))
    (h3 : s.history.length ≤ 18) :
    (s.drawing (pidx s.width sx sy) = ⟨r, g, b, 255⟩ →
      handleBucketFill s.width s.height s.drawing s.mask sx sy r g b = s.drawing) ∧
    handleBucketFill s.width s.height
        (handleBucketFill s.width s.height s.drawing s.mask sx sy r g b)
        s.mask sx sy r g b =
      handleBucketFill s.width s.height s.drawing s.mask sx sy r g b ∧
    (bucketDown (bucketDown s sx sy r g b) sx sy r g b).drawing =
      (bucketDown s sx sy r g b).drawing ∧
    (bucketDown (bucketDown s sx sy r g b) sx sy r g b).history =
      (bucketDown s sx sy r g b).history ++
        [⟨(bucketDown s sx sy r g b).drawing, s.mask⟩] := by
  have hid := bucket_idem s.width s.height s.drawing s.mask sx sy r g b hin
  have htw := bucketDown_twice s sx sy r g b hin
  obtain ⟨l1, l2, _, _⟩ := saveHistory_spec
    { s with drawing := handleBucketFill s.width s.height s.drawing s.mask sx sy r g b }
    (show -1 ≤ s.historyStep from h1)
    (show s.historyStep < (s.history.length : Int) from h2)
    (show s.history.length ≤ 20 from by omega)
  have l1b : (bucketDown s sx sy r g b).history.length =
      min ((s.historyStep + 1).toNat + 1) 20 := l1
  have l2b : (bucketDown s sx sy r g b).historyStep =
      ((bucketDown s sx sy r g b).history.length : Int) - 1 := l2
  refine ⟨fun heq =>
    bucket_same_color s.width s.height s.drawing s.mask sx sy r g b hin heq,
    hid, ?_, ?_⟩
  · rw [htw, saveHistory_drawing]
  · rw [htw]
    obtain ⟨_, _, _, l4b⟩ := saveHistory_spec (bucketDown s sx sy r g b)
      (by rw [l2b]; omega)
      (by rw [l2b]; omega)
      (by rw [l1b]; omega)
    have h4 := l4b ⟨l2b, by rw [l1b]; omega⟩
    rw [h4]
    rfl

/-- Witness for C2's amended theorem at a concrete input: the 1×1
all-red session of the counterexample. -/

theorem c2_witness :
    (oneRedState.drawing (pidx 1 0 0) = ⟨255, 0, 0, 255⟩ →
      handleBucketFill 1 1 oneRedState.drawing oneRedState.mask 0 0 255 0 0 =
        oneRedState.drawing) ∧
      handleBucketFill 1 1
          (handleBucketFill 1 1 oneRedState.drawing oneRedState.mask 0 0 255 0 0)
          oneRedState.mask 0 0 255 0 0 =
        handleBucketFill 1 1 oneRedState.drawing oneRedState.mask 0 0 255 0 0 := by
  have h := c2_same_color_idempotent oneRedState 0 0 255 0 0
    (by decide) (by decide) (by decide) (by decide)
  exact ⟨h.1, h.2.1⟩

/-- Claim C3: in bucket mode, every pointer-down performs exactly one
flood fill (the new drawing layer is the single-fill result) and then
always pushes exactly one history snapshot - the last history entry is a
snapshot of the post-fill canvases, the length grows by one (capped at
20), and the cursor points at it.  No hypothesis constrains the seed or
colors, so this covers the case where the same-color no-op guard fired
and the pushed snapshot duplicates the previous canvas content. -/

theorem c3_bucket_always_snapshots (s : EditorState) (sx sy : Int)
    (r g b : Nat) (h1 : -1 ≤ s.historyStep)
    (h2 : s.historyStep < (s.history.length : Int))
    (h3 : s.history.length ≤ 20) :
    (bucketDown s sx sy r g b).drawing =
      handleBucketFill s.width s.height s.drawing s.mask sx sy r g b ∧
    (bucketDown s sx sy r g b).history.getLast? =
      some ⟨handleBucketFill s.width s.height s.drawing s.mask sx sy r g b, s.mask⟩ ∧
    (bucketDown s sx sy r g b).history.length =
      min ((s.historyStep + 1).toNat + 1) 20 ∧
    (bucketDown s sx sy r g b).historyStep =
      ((bucketDown s sx sy r g b).history.length : Int) - 1 := by
  obtain ⟨l1, l2, l3, _⟩ := saveHistory_spec
    { s with drawing := handleBucketFill s.width s.height s.drawing s.mask sx sy r g b }
    (show -1 ≤ s.historyStep from h1)
    (show s.historyStep < (s.history.length : Int) from h2)
    (show s.history.length ≤ 20 from h3)
  exact ⟨rfl, l3, l1, l2⟩

/-- Witness for C3 at a concrete input: a bucket click on the freshly
loaded 1×1 session. -/

theorem c3_witness :
    (bucketDown (initialState 1 1) 0 0 255 0 0).history.getLast? =
      some ⟨handleBucketFill (initialState 1 1).width (initialState 1 1).height
        (initialState 1 1).drawing (initialState 1 1).mask 0 0 255 0 0,
        (initialState 1 1).mask⟩ ∧
    (bucketDown (initialState 1 1) 0 0 255 0 0).history.length =
      min (((initialState 1 1).historyStep + 1).toNat + 1) 20 :=
  ⟨(c3_bucket_always_snapshots (initialState 1 1) 0 0 255 0 0
      (by decide) (by decide) (by decide)).2.1,
   (c3_bucket_always_snapshots (initialState 1 1) 0 0 255 0 0
      (by decide) (by decide) (by decide)).2.2.1⟩

/-- Claim C6: in every reachable history state the invariants hold:
`-1 ≤ historyStep`, `historyStep < history.length` (strictly, also
covering the empty history where the cursor is −1), and the stored
snapshot count never exceeds the cap 20.  Moreover a push from any
reachable state retains exactly the most recent `min(length, 20)`
entries of the truncated-history-plus-new-snapshot list: when the
appended list would exceed the cap, exactly its oldest entry is
dropped. -/

theorem c6_history_invariant (s : EditorState) (hs : Reachable s) :
    (-1 ≤ s.historyStep ∧ s.historyStep < (s.history.length : Int) ∧
      s.history.length ≤ 20) ∧
    ∀ d m : Nat → RGBA,
      (saveHistory { s with drawing := d, mask := m }).history =
        (jsSlice0 s.history (s.historyStep + 1) ++ [(⟨d, m⟩ : Snapshot)]).drop
          ((jsSlice0 s.history (s.historyStep + 1) ++ [(⟨d, m⟩ : Snapshot)]).length - 20) := by
  obtain ⟨i1, i2, i3⟩ := reachable_inv hs
  refine ⟨⟨i1, i2, i3⟩, ?_⟩
  intro d m
  have hlen : (jsSlice0 s.history (s.historyStep + 1)).length ≤ 20 := by
    unfold jsSlice0
    rw [if_neg (by omega), List.length_take]
    omega
  simp only [saveHistory]
  split
  · rename_i hbig
    simp only [List.length_append, List.length_singleton] at hbig ⊢
    congr 1
    omega
  · rename_i hsmall
    simp only [List.length_append, List.length_singleton] at hsmall ⊢
    rw [show (jsSlice0 s.history (s.historyStep + 1)).length + 1 - 20 = 0 by omega,
      List.drop_zero]

/-- Witness for C6 at a concrete input: the invariant part at the
freshly reset session. -/

theorem c6_witness :
    -1 ≤ (initialState 1 1).historyStep ∧
      (initialState 1 1).historyStep < ((initialState 1 1).history.length : Int) ∧
      (initialState 1 1).history.length ≤ 20 :=
  (c6_history_invariant (initialState 1 1) (Reachable.init 1 1)).1

/-- Claim C5: behaviour of `undo` in every reachable state.  With cursor
above 0 it moves the cursor back one and restores that snapshot's
drawing and mask buffers bit-for-bit (the index is in range by the
history invariant); at cursor 0 it restores the all-blank pre-edit state
and sets the cursor to −1; at cursor −1 it is a silent no-op that
changes nothing, and any number of further undo calls leaves the state
unchanged. -/

theorem c5_undo_behaviour (s : EditorState) (hs : Reachable s) :
    (0 < s.historyStep →
      (handleUndo s).historyStep = s.historyStep - 1 ∧
      (handleUndo s).history = s.history ∧
      (s.historyStep - 1).toNat < s.history.length ∧
      (handleUndo s).drawing =
        (s.history.getD (s.historyStep - 1).toNat blankSnap).drawing ∧
      (handleUndo s).mask =
        (s.history.getD (s.historyStep - 1).toNat blankSnap).mask) ∧
    (s.historyStep = 0 →
      (handleUndo s).drawing = blankBuf ∧ (handleUndo s).mask = blankBuf ∧
      (handleUndo s).historyStep = -1 ∧ (handleUndo s).history = s.history) ∧
    (s.historyStep = -1 → handleUndo s = s) ∧
    (s.historyStep = -1 → ∀ n : Nat, handleUndo^[n] s = s) := by
  obtain ⟨i1, i2, i3⟩ := reachable_inv hs
  have hfix : s.historyStep = -1 → handleUndo s = s := by
    intro hneg
    unfold handleUndo
    rw [if_neg (by omega), if_neg (by omega)]
  refine ⟨?_, ?_, hfix, ?_⟩
  · intro hpos
    unfold handleUndo
    rw [if_pos hpos]
    exact ⟨rfl, rfl, by omega, rfl, rfl⟩
  · intro hzero
    unfold handleUndo
    rw [if_neg (by omega), if_pos hzero]
    exact ⟨rfl, rfl, rfl, rfl⟩
  · intro hneg n
    induction n with
    | zero => rfl
    | succ n ih =>
      rw [Function.iterate_succ_apply, hfix hneg]
      exact ih

theorem demoState_reachable : Reachable demoState :=
  Reachable.save _ (Reachable.canvas _ _ _ (Reachable.save _ (Reachable.init 1 1)))

/-- Witness for C5 at a concrete input: undo from the cursor-1 state of
`demoState` restores snapshot 0. -/

theorem c5_witness :
    (handleUndo demoState).historyStep = demoState.historyStep - 1 ∧
      (handleUndo demoState).history = demoState.history ∧
      (demoState.historyStep - 1).toNat < demoState.history.length ∧
      (handleUndo demoState).drawing =
        (demoState.history.getD (demoState.historyStep - 1).toNat blankSnap).drawing ∧
      (handleUndo demoState).mask =
        (demoState.history.getD (demoState.historyStep - 1).toNat blankSnap).mask :=
  (c5_undo_behaviour demoState demoState_reachable).1 (by decide)

/-- Claim C7: starting from the initial blank snapshot pushed at image
load, after three brush strokes, two undos and one new stroke the
history is exactly the three-entry list [initial blank, first stroke,
new stroke] with the cursor at index 2: the push from cursor 1
truncated the second and third strokes' snapshots away, so the third
stroke is unrecoverable, and the canvas before the new stroke was the
restored first-stroke drawing. -/
theorem c7_truncation_scenario (w h : Nat) (d1 d2 d3 d4 : Nat → RGBA) :
    (strokeThenSave (handleUndo (handleUndo
        (strokeThenSave (strokeThenSave (strokeThenSave
          (saveHistory (initialState w h)) d1) d2) d3))) d4).history =
      [⟨blankBuf, blankBuf⟩, ⟨d1, blankBuf⟩, ⟨d4, blankBuf⟩] ∧
    (strokeThenSave (handleUndo (handleUndo
        (strokeThenSave (strokeThenSave (strokeThenSave
          (saveHistory (initialState w h)) d1) d2) d3))) d4).historyStep = 2 ∧
    (handleUndo (handleUndo
        (strokeThenSave (strokeThenSave (strokeThenSave
          (saveHistory (initialState w h)) d1) d2) d3))).drawing = d1 := by
  have e0 : saveHistory (initialState w h) =
      ⟨w, h, blankBuf, blankBuf, [⟨blankBuf, blankBuf⟩], 0⟩ := rfl
  have e1 : strokeThenSave
      (⟨w, h, blankBuf, blankBuf, [⟨blankBuf, blankBuf⟩], 0⟩ : EditorState) d1 =
      ⟨w, h, d1, blankBuf, [⟨blankBuf, blankBuf⟩, ⟨d1, blankBuf⟩], 1⟩ := rfl
  have e2 : strokeThenSave
      (⟨w, h, d1, blankBuf, [⟨blankBuf, blankBuf⟩, ⟨d1, blankBuf⟩], 1⟩ : EditorState) d2 =
      ⟨w, h, d2, blankBuf,
        [⟨blankBuf, blankBuf⟩, ⟨d1, blankBuf⟩, ⟨d2, blankBuf⟩], 2⟩ := rfl
  have e3 : strokeThenSave
      (⟨w, h, d2, blankBuf,
        [⟨blankBuf, blankBuf⟩, ⟨d1, blankBuf⟩, ⟨d2, blankBuf⟩], 2⟩ : EditorState) d3 =
      ⟨w, h, d3, blankBuf,
        [⟨blankBuf, blankBuf⟩, ⟨d1, blankBuf⟩, ⟨d2, blankBuf⟩, ⟨d3, blankBuf⟩], 3⟩ := rfl
  have e4 : handleUndo
      (⟨w, h, d3, blankBuf,
        [⟨blankBuf, blankBuf⟩, ⟨d1, blankBuf⟩, ⟨d2, blankBuf⟩, ⟨d3, blankBuf⟩], 3⟩ :
        EditorState) =
      ⟨w, h, d2, blankBuf,
        [⟨blankBuf, blankBuf⟩, ⟨d1, blankBuf⟩, ⟨d2, blankBuf⟩, ⟨d3, blankBuf⟩], 2⟩ := rfl
  have e5 : handleUndo
      (⟨w, h, d2, blankBuf,
        [⟨blankBuf, blankBuf⟩, ⟨d1, blankBuf⟩, ⟨d2, blankBuf⟩, ⟨d3, blankBuf⟩], 2⟩ :
        EditorState) =
      ⟨w, h, d1, blankBuf,
        [⟨blankBuf, blankBuf⟩, ⟨d1, blankBuf⟩, ⟨d2, blankBuf⟩, ⟨d3, blankBuf⟩], 1⟩ := rfl
  have e6 : strokeThenSave
      (⟨w, h, d1, blankBuf,
        [⟨blankBuf, blankBuf⟩, ⟨d1, blankBuf⟩, ⟨d2, blankBuf⟩, ⟨d3, blankBuf⟩], 1⟩ :
        EditorState) d4 =
      ⟨w, h, d4, blankBuf,
        [⟨blankBuf, blankBuf⟩, ⟨d1, blankBuf⟩, ⟨d4, blankBuf⟩], 2⟩ := rfl
  rw [e0, e1, e2, e3, e4, e5, e6]
  exact ⟨rfl, rfl, rfl⟩

/-- Claim C4: on a 100×100 buffer with fully transparent drawing and
mask layers, a bucket click at seed (50,50) with opaque red turns all
10,000 drawing-layer pixels opaque red, pushes exactly one history
snapshot and increments `historyStep` by exactly one (the cursor being
at the last entry with the history below its cap, as it is right after
image load). -/

theorem c4_full_fill_scenario (s : EditorState)
    (hw : s.width = 100) (hh : s.height = 100)
    (hd : s.drawing = blankBuf) (hm : s.mask = blankBuf)
    (hstep : s.historyStep = (s.history.length : Int) - 1)
    (hcap : s.history.length < 20) :
    (∀ p, p < 10000 → (bucketDown s 50 50 255 0 0).drawing p = ⟨255, 0, 0, 255⟩) ∧
    (bucketDown s 50 50 255 0 0).history.length = s.history.length + 1 ∧
    (bucketDown s 50 50 255 0 0).historyStep = s.historyStep + 1 := by
  have hfill := bucket_fills_uniform 100 100 blankBuf blankBuf ⟨0, 0, 0, 0⟩
    50 50 255 0 0 (fun _ => rfl) (fun _ => Nat.zero_le 10) (by decide) (by decide)
  obtain ⟨l1, l2, l3, l4⟩ := saveHistory_spec
    { s with drawing := handleBucketFill s.width s.height s.drawing s.mask 50 50 255 0 0 }
    (show -1 ≤ s.historyStep from by omega)
    (show s.historyStep < (s.history.length : Int) from by omega)
    (show s.history.length ≤ 20 from by omega)
  have h4 := l4 ⟨hstep, hcap⟩
  refine ⟨?_, ?_, ?_⟩
  · intro p hp
    have hin : inB 100 100 ((p % 100 : Nat) : Int) ((p / 100 : Nat) : Int) := by
      unfold inB
      omega
    have hpx := hfill _ _ hin
    have hpidx : pidx 100 ((p % 100 : Nat) : Int) ((p / 100 : Nat) : Int) = p := by
      unfold pidx
      omega
    rw [hpidx] at hpx
    show handleBucketFill s.width s.height s.drawing s.mask 50 50 255 0 0 p =
      (⟨255, 0, 0, 255⟩ : RGBA)
    rw [hw, hh, hd, hm]
    exact hpx
  · show (saveHistory { s with
      drawing := handleBucketFill s.width s.height s.drawing s.mask 50 50 255 0 0 }).history.length =
      s.history.length + 1
    rw [h4, List.length_append, List.length_singleton]
  · show (saveHistory { s with
      drawing := handleBucketFill s.width s.height s.drawing s.mask 50 50 255 0 0 }).historyStep =
      s.historyStep + 1
    rw [l2, h4, List.length_append, List.length_singleton]
    push_cast
    omega

/-- Witness for C4 at a concrete input: the state right after loading a
100×100 image (one blank snapshot, cursor 0). -/

theorem c4_witness :
    (bucketDown (saveHistory (initialState 100 100)) 50 50 255 0 0).drawing 0 =
        ⟨255, 0, 0, 255⟩ ∧
      (bucketDown (saveHistory (initialState 100 100)) 50 50 255 0 0).history.length =
        (saveHistory (initialState 100 100)).history.length + 1 ∧
      (bucketDown (saveHistory (initialState 100 100)) 50 50 255 0 0).historyStep =
        (saveHistory (initialState 100 100)).historyStep + 1 :=
  ⟨(c4_full_fill_scenario (saveHistory (initialState 100 100)) rfl rfl rfl rfl
      (by decide) (by decide)).1 0 (by decide),
   (c4_full_fill_scenario (saveHistory (initialState 100 100)) rfl rfl rfl rfl
      (by decide) (by decide)).2.1,
   (c4_full_fill_scenario (saveHistory (initialState 100 100)) rfl rfl rfl rfl
      (by decide) (by decide)).2.2⟩

/-- Claim C8: for every source-image size, pan and zoom, the export
renders a fixed 1024×1024 output: it fills an opaque black background,
and draws first the source image and then the drawing layer - never the
mask layer - under the single composed transform
translate(512,512) ∘ translate(pan·1024/500) ∘ scale(zoom), at
destination rectangle centered on the origin with
`drawWidth = 1024 · (naturalWidth/naturalHeight)` and
`drawHeight = 1024` (aspect ratio preserved, vertical extent filled). -/

theorem c8_export_transform (nw nh px py z : ℚ) :
    (handleSave nw nh px py z).rects =
      [⟨⟨0, 0, 0, 255⟩, 0, 0, 1024, 1024⟩] ∧
    (handleSave nw nh px py z).images =
      [⟨LayerSrc.source,
        ⟨z, 0, 0, z, 512 + px * (1024 / 500), 512 + py * (1024 / 500)⟩,
        -(1024 * (nw / nh)) / 2, -(1024 : ℚ) / 2, 1024 * (nw / nh), 1024⟩,
       ⟨LayerSrc.drawing,
        ⟨z, 0, 0, z, 512 + px * (1024 / 500), 512 + py * (1024 / 500)⟩,
        -(1024 * (nw / nh)) / 2, -(1024 : ℚ) / 2, 1024 * (nw / nh), 1024⟩] ∧
    ∀ call ∈ (handleSave nw nh px py z).images, call.layer ≠ LayerSrc.maskLayer := by
  have himg : (handleSave nw nh px py z).images =
      [⟨LayerSrc.source,
        ⟨z, 0, 0, z, 512 + px * (1024 / 500), 512 + py * (1024 / 500)⟩,
        -(1024 * (nw / nh)) / 2, -(1024 : ℚ) / 2, 1024 * (nw / nh), 1024⟩,
       ⟨LayerSrc.drawing,
        ⟨z, 0, 0, z, 512 + px * (1024 / 500), 512 + py * (1024 / 500)⟩,
        -(1024 * (nw / nh)) / 2, -(1024 : ℚ) / 2, 1024 * (nw / nh), 1024⟩] := by
    simp only [handleSave, Ctx2D.new, Ctx2D.setFillStyle, Ctx2D.fillRect,
      Ctx2D.translate, Ctx2D.scale, Ctx2D.drawImage, Mat.idm, Mat.comp,
      Mat.translation, Mat.scaling, VIEWPORT_SIZE, List.nil_append,
      List.cons_append, List.append_nil]
    norm_num
    constructor <;> ring
  refine ⟨rfl, himg, ?_⟩
  intro call hcall
  rw [himg] at hcall
  rcases List.mem_cons.mp hcall with hc | hc2
  · subst hc
    intro hx
    exact LayerSrc.noConfusion hx
  · rcases List.mem_cons.mp hc2 with hc | hc3
    · subst hc
      intro hx
      exact LayerSrc.noConfusion hx
    · cases hc3
